import Mathlib

/-!
Verification of the fileParser repository (src/fileParser.py).

The program keeps column-oriented data as Python dicts mapping a column
name to the list of that column's string values, with dict insertion
order preserved.  We embed such a "Column Store" as an association list
`List (String × List String)` (keys are unique in any store obtained from
a Python dict) and embed each operation of `FileParser` as a function on
that representation:

* `ruleAmount` … `ruleAmounts`, `csvNormalize` — the five schema
  normalisation rewrites of `csv_parser` (lines 96-115);
* `dateCanonList`, `csvCanonDates` — the date canonicalisation loop
  (lines 117-125), over a functional model of `datetime.strptime` for
  the three format strings of line 119;
* `csvParse` — normalisation followed by date canonicalisation, i.e.
  `csv_parser`'s processing of an already-read raw store;
* `mergeStore` — the fold of a per-file store into the shared
  `self.data_list` (lines 127-132);
* `generate_csv` — the header row and `itertools.zip_longest` rows of
  lines 141-148;
* `file_parser_factory_method` — the extension dispatch of lines 73-82;
* `runSched` — the workers' drain of the `queue.Queue`, one atomic
  non-blocking `get` per scheduled step (lines 59-67 and 158-166).
-/

/-- A Column Store: Python dict from column name to the list of values,
in insertion order. -/
abbrev Store := List (String × List String)

/-- Dict lookup: `columns.get(k, None)` / `columns[k]` read. -/
def getCol : Store → String → Option (List String)
  | [], _ => none
  | (k', v) :: t, k => if k' = k then some v else getCol t k

/-- Dict write `columns[k] = v`: replaces the value in place if the key
is present, otherwise appends the new entry at the end (Python dicts
keep insertion order). -/
def setKey : Store → String → List String → Store
  | [], k, v => [(k, v)]
  | (k', v') :: t, k, v => if k' = k then (k, v) :: t else (k', v') :: setKey t k v

/-- Dict deletion `del columns[k]`. -/
def delKey : Store → String → Store
  | [], _ => []
  | (k', v) :: t, k => if k' = k then delKey t k else (k', v) :: delKey t k

/-- In-place `self.data_list[k].extend(v)`: appends `v` to the value at
`k`, keeping the entry's position; leaves the store unchanged if the key
is absent (the caller only invokes it on present keys). -/
def extendKey : Store → String → List String → Store
  | [], _, _ => []
  | (k', v') :: t, k, v => if k' = k then (k', v' ++ v) :: t else (k', v') :: extendKey t k v

/-- Python truthiness of `columns.get(k, None)`: `None` and the empty
list are falsy, a non-empty list is truthy. -/
def truthy : Option (List String) → Bool
  | some (_ :: _) => true
  | _ => false

/-- Lines 96-99: if both "euro" and "cents" are truthy, set "amount" to
the pairwise "euro.cents" strings (`zip` trims to the shorter list) and
delete "euro" and "cents". -/
def ruleAmount (c : Store) : Store :=
  if truthy (getCol c "euro") && truthy (getCol c "cents") then
    delKey (delKey (setKey c "amount"
      (List.zipWith (fun a b => a ++ "." ++ b) ((getCol c "euro").getD []) ((getCol c "cents").getD []))) "euro") "cents"
  else c

/-- Lines 101-103: if "timestamp" is truthy, copy it to "date" and
delete "timestamp". -/
def ruleTimestamp (c : Store) : Store :=
  if truthy (getCol c "timestamp") then
    delKey (setKey c "date" ((getCol c "timestamp").getD [])) "timestamp"
  else c

/-- Lines 105-107: if "date_readable" is truthy, copy it to "date" and
delete "date_readable". -/
def ruleDateReadable (c : Store) : Store :=
  if truthy (getCol c "date_readable") then
    delKey (setKey c "date" ((getCol c "date_readable").getD [])) "date_readable"
  else c

/-- Lines 109-111: if "type" is truthy, copy it to "transaction" and
delete "type". -/
def ruleType (c : Store) : Store :=
  if truthy (getCol c "type") then
    delKey (setKey c "transaction" ((getCol c "type").getD [])) "type"
  else c

/-- Lines 113-115: if "amounts" is truthy, copy it to "amount" and
delete "amounts". -/
def ruleAmounts (c : Store) : Store :=
  if truthy (getCol c "amounts") then
    delKey (setKey c "amount" ((getCol c "amounts").getD [])) "amounts"
  else c

/-- The five sequential normalisation rewrites of `csv_parser`
(lines 96-115), each reading the store as left by the previous one. -/
def csvNormalize (c : Store) : Store :=
  ruleAmounts (ruleType (ruleDateReadable (ruleTimestamp (ruleAmount c))))

theorem getCol_setKey_self (c : Store) (k : String) (v : List String) :
    getCol (setKey c k v) k = some v := by
  induction c with
  | nil => simp [setKey, getCol]
  | cons kv t ih =>
    obtain ⟨k', v'⟩ := kv
    by_cases h : k' = k
    · simp [setKey, h, getCol]
    · simp [setKey, h, getCol, ih]

theorem getCol_setKey_ne (c : Store) (k k' : String) (v : List String) (h : k' ≠ k) :
    getCol (setKey c k v) k' = getCol c k' := by
  induction c with
  | nil => simp [setKey, getCol, Ne.symm h]
  | cons kv t ih =>
    obtain ⟨k0, v0⟩ := kv
    by_cases h0 : k0 = k
    · subst h0
      simp [setKey, getCol, Ne.symm h]
    · simp [setKey, h0, getCol, ih]

theorem getCol_delKey_self (c : Store) (k : String) :
    getCol (delKey c k) k = none := by
  induction c with
  | nil => simp [delKey, getCol]
  | cons kv t ih =>
    obtain ⟨k0, v0⟩ := kv
    by_cases h0 : k0 = k
    · simp [delKey, h0, ih]
    · simp [delKey, h0, getCol, ih]

theorem getCol_delKey_ne (c : Store) (k k' : String) (h : k' ≠ k) :
    getCol (delKey c k) k' = getCol c k' := by
  induction c with
  | nil => simp [delKey]
  | cons kv t ih =>
    obtain ⟨k0, v0⟩ := kv
    by_cases h0 : k0 = k
    · subst h0
      simp [delKey, getCol, Ne.symm h, ih]
    · simp [delKey, h0, getCol, ih]

/-- One or more ASCII whitespace characters is what a space in a
`strptime` format string matches (CPython compiles it to the regex
fragment matching whitespace one or more times). -/
def isWsChar (c : Char) : Bool :=
  c = ' ' || c = '\t' || c = '\n' || c = '\r' || c = '\x0b' || c = '\x0c'

/-- Consume one mandatory whitespace character and then any further
whitespace; `none` if the input does not start with whitespace. -/
def skipWs (cs : List Char) : Option (List Char) :=
  match cs with
  | c :: t => if isWsChar c then some (t.dropWhile isWsChar) else none
  | [] => none

/-- Split off the maximal leading run of decimal digits. -/
def takeDigits : List Char → List Char × List Char
  | [] => ([], [])
  | c :: t =>
    if c.isDigit then
      let p := takeDigits t
      (c :: p.1, p.2)
    else ([], c :: t)

/-- The day field of `strptime` (`%d`): the regex alternatives
`3[01]`, `[12][0-9]`, `0[1-9]`, `[1-9]`, required here to cover the
whole digit run (the character after the run is never a digit, so no
shorter alternative can complete a match). -/
def validDayTok : List Char → Bool
  | [c] => '1' ≤ c && c ≤ '9'
  | [c1, c2] =>
    (c1 = '3' && (c2 = '0' || c2 = '1')) ||
    ((c1 = '1' || c1 = '2') && c2.isDigit) ||
    (c1 = '0' && ('1' ≤ c2 && c2 ≤ '9'))
  | _ => false

/-- The month field of `strptime` (`%m`): regex alternatives `1[0-2]`,
`0[1-9]`, `[1-9]`, covering the whole digit run. -/
def validMonthTok : List Char → Bool
  | [c] => '1' ≤ c && c ≤ '9'
  | [c1, c2] =>
    (c1 = '1' && (c2 = '0' || c2 = '1' || c2 = '2')) ||
    (c1 = '0' && ('1' ≤ c2 && c2 ≤ '9'))
  | _ => false

/-- The twelve month abbreviations `%b` accepts (C locale), lowercased,
with their month numbers. -/
def monthTable : List (Char × Char × Char × Nat) :=
  [('j', 'a', 'n', 1), ('f', 'e', 'b', 2), ('m', 'a', 'r', 3), ('a', 'p', 'r', 4),
   ('m', 'a', 'y', 5), ('j', 'u', 'n', 6), ('j', 'u', 'l', 7), ('a', 'u', 'g', 8),
   ('s', 'e', 'p', 9), ('o', 'c', 't', 10), ('n', 'o', 'v', 11), ('d', 'e', 'c', 12)]

/-- Case-insensitive match of three characters against a month
abbreviation (`%b` is matched under `re.IGNORECASE`). -/
def monthAbbrev? (c1 c2 c3 : Char) : Option Nat :=
  (monthTable.find? (fun e =>
    c1.toLower = e.1 && c2.toLower = e.2.1 && c3.toLower = e.2.2.1)).map
    (fun e => e.2.2.2)

/-- Numeric value of a digit run. -/
def digitsToNat (cs : List Char) : Nat :=
  cs.foldl (fun n c => 10 * n + (c.toNat - 48)) 0

/-- Whole-string match for the format `'%b %d %Y'` (month-name, day,
four-digit year, separated by whitespace); yields `(day, month, year)`. -/
def parseBDY (cs : List Char) : Option (Nat × Nat × Nat) :=
  match cs with
  | c1 :: c2 :: c3 :: rest =>
    match monthAbbrev? c1 c2 c3 with
    | none => none
    | some m =>
      match skipWs rest with
      | none => none
      | some r1 =>
        if validDayTok (takeDigits r1).1 then
          match skipWs (takeDigits r1).2 with
          | none => none
          | some r2 =>
            if (takeDigits r2).1.length = 4 && (takeDigits r2).2.isEmpty then
              some (digitsToNat (takeDigits r1).1, m, digitsToNat (takeDigits r2).1)
            else none
        else none
  | _ => none

/-- Whole-string match for the format `'%d %b %Y'`; yields
`(day, month, year)`. -/
def parseDBY (cs : List Char) : Option (Nat × Nat × Nat) :=
  if validDayTok (takeDigits cs).1 then
    match skipWs (takeDigits cs).2 with
    | none => none
    | some r1 =>
      match r1 with
      | c1 :: c2 :: c3 :: rest =>
        match monthAbbrev? c1 c2 c3 with
        | none => none
        | some m =>
          match skipWs rest with
          | none => none
          | some r2 =>
            if (takeDigits r2).1.length = 4 && (takeDigits r2).2.isEmpty then
              some (digitsToNat (takeDigits cs).1, m, digitsToNat (takeDigits r2).1)
            else none
      | _ => none
  else none

/-- Whole-string match for the format `'%d-%m-%Y'` (numeric,
dash-separated); yields `(day, month, year)`. -/
def parseDmY (cs : List Char) : Option (Nat × Nat × Nat) :=
  if validDayTok (takeDigits cs).1 then
    match (takeDigits cs).2 with
    | c :: r1 =>
      if c = '-' then
        if validMonthTok (takeDigits r1).1 then
          match (takeDigits r1).2 with
          | c' :: r2 =>
            if c' = '-' then
              if (takeDigits r2).1.length = 4 && (takeDigits r2).2.isEmpty then
                some (digitsToNat (takeDigits cs).1, digitsToNat (takeDigits r1).1,
                  digitsToNat (takeDigits r2).1)
              else none
            else none
          | [] => none
        else none
      else none
    | [] => none
  else none

def isLeapYear (y : Nat) : Bool :=
  y % 4 = 0 && (y % 100 ≠ 0 || y % 400 = 0)

def daysInMonth (m y : Nat) : Nat :=
  if m = 2 then (if isLeapYear y then 29 else 28)
  else if m = 4 || m = 6 || m = 9 || m = 11 then 30
  else 31

/-- The validity check `datetime` performs on construction: year at
least `MINYEAR = 1` (the regex already bounds it by 9999) and the day
within the month. -/
def validDate : Nat × Nat × Nat → Bool
  | (d, m, y) => 1 ≤ y && 1 ≤ d && d ≤ daysInMonth m y

/-- The three format strings of line 119, in source order:
`'%b %d %Y'`, `'%d %b %Y'`, `'%d-%m-%Y'`. -/
inductive DateFmt
  | bdy
  | dby
  | dmy
deriving DecidableEq

def dateFormats : List DateFmt := [DateFmt.bdy, DateFmt.dby, DateFmt.dmy]

/-- Pattern match of one format against the whole string. -/
def applyFmt (f : DateFmt) (cs : List Char) : Option (Nat × Nat × Nat) :=
  match f with
  | DateFmt.bdy => parseBDY cs
  | DateFmt.dby => parseDBY cs
  | DateFmt.dmy => parseDmY cs

/-- `datetime.strptime(s, fmt)` as used on line 121: the regex match of
the format followed by the construction-time date validation; `none`
models the `ValueError` the code catches. -/
def pyStrptime (f : DateFmt) (s : String) : Option (Nat × Nat × Nat) :=
  match applyFmt f s.data with
  | some r => if validDate r then some r else none
  | none => none

def pad2 (n : Nat) : String :=
  if n < 10 then "0" ++ toString n else toString n

def pad4 (n : Nat) : String :=
  if n < 10 then "000" ++ toString n
  else if n < 100 then "00" ++ toString n
  else if n < 1000 then "0" ++ toString n
  else toString n

/-- `date_obj.strftime('%d-%m-%Y')` on line 122: zero-padded numeric
day-month-year. -/
def formatDMY : Nat × Nat × Nat → String
  | (d, m, y) => pad2 d ++ "-" ++ pad2 m ++ "-" ++ pad4 y

/-- The inner loop of lines 119-124 for a single value: every format is
attempted (there is no `break`), and each successful parse appends one
canonical string to `date_list`. -/
def canonValue (s : String) : List String :=
  dateFormats.filterMap (fun f => (pyStrptime f s).map formatDMY)

/-- The whole loop of lines 117-124: `date_list` accumulated over the
rows of the "date" column. -/
def dateCanonList (rows : List String) : List String :=
  rows.flatMap canonValue

/-- Lines 117-125: reading `columns['date']` on a `defaultdict(list)`
inserts an empty "date" entry when the key is missing, and line 125
then stores the canonicalised list at "date"; both effects equal
`setKey` of the canonicalised (possibly empty) row list. -/
def csvCanonDates (c : Store) : Store :=
  setKey c "date" (dateCanonList ((getCol c "date").getD []))

/-- `csv_parser`'s processing of one already-read raw store
(lines 96-125): schema normalisation, then date canonicalisation. -/
def csvParse (raw : Store) : Store :=
  csvCanonDates (csvNormalize raw)

/-- Lines 127-132: folding one per-file store into `self.data_list`.
An empty aggregate (falsy dict) is replaced by the per-file store
wholesale; otherwise, for each per-file key in order, the aggregate's
value is extended when the key is already present (`if i in
self.data_list`) and nothing happens when it is not. -/
def mergeStore (agg per : Store) : Store :=
  if agg.isEmpty then per
  else per.foldl
    (fun acc kv => if (getCol acc kv.1).isSome then extendKey acc kv.1 kv.2 else acc) agg

/-- The length of the longest column, which is the number of rows
`itertools.zip_longest` produces. -/
def maxColLen (ls : List (List String)) : Nat :=
  ls.foldr (fun l r => max l.length r) 0

/-- `itertools.zip_longest` unrolled: one row per step, each column
contributing its head or, once exhausted, the empty string (the `None`
fill value, which `csv.writer` renders as an empty field); the step
count is the length of the longest column, after which all iterators
are exhausted and the zip stops. -/
def zipRowsAux : Nat → List (List String) → List (List String)
  | 0, _ => []
  | n + 1, ls => ls.map (fun col => col.headD "") :: zipRowsAux n (ls.map List.tail)

def zipLongestRows (ls : List (List String)) : List (List String) :=
  zipRowsAux (maxColLen ls) ls

/-- Lines 141-148 of `generate_csv`: the header row listing the
aggregate's keys, then the positionally zipped data rows. -/
def generate_csv (agg : Store) : List (List String) :=
  (agg.map Prod.fst) :: zipLongestRows (agg.map Prod.snd)

/-- `filename.endswith(suffix)`. -/
def endsWith (fn sfx : String) : Bool :=
  sfx.data.isSuffixOf fn.data

/-- Lines 73-82, `file_parser_factory_method`, as a transformer of the
shared aggregate: a ".csv" file is read (through the `readFile` oracle
standing for the file system), parsed and merged; ".xml" and ".json"
hit the `pass` placeholders; anything else raises the exception of
line 82, modelled as `Except.error` with the source's message. -/
def file_parser_factory_method (readFile : String → Store) (agg : Store)
    (filename : String) : Except String Store :=
  if endsWith filename ".csv" then Except.ok (mergeStore agg (csvParse (readFile filename)))
  else if endsWith filename ".xml" then Except.ok agg
  else if endsWith filename ".json" then Except.ok agg
  else Except.error "Error. Cannot parse this type of file."

/-- State of the shared `queue.Queue` and of the processing log: the
remaining queue (FIFO) and the successful `get` calls so far, each
recorded as (worker, file reference) in the order the gets happened. -/
structure QueueState where
  queue : List String
  log : List (Nat × String)

/-- One worker turn in `process_queued_files` (lines 59-67): a single
atomic non-blocking `get`.  `queue.Queue.get` removes and returns the
head under the queue's internal lock; on an empty queue it raises
`queue.Empty` and the worker returns, leaving the state unchanged. -/
def dequeueStep (s : QueueState) (w : Nat) : QueueState :=
  match s.queue with
  | [] => s
  | f :: rest => ⟨rest, s.log ++ [(w, f)]⟩

/-- A run of the worker pool under an arbitrary thread interleaving:
`sched` is the global order in which workers reach their `get` calls
(each entry one worker's turn), starting from the queue holding all
input files in `add_files_queue` order. -/
def runSched (files : List String) (sched : List Nat) : QueueState :=
  sched.foldl dequeueStep ⟨files, []⟩

theorem digit_toLower (c : Char) (h : c.isDigit = true) : c.toLower = c := by
  simp only [Char.isDigit, Bool.and_eq_true, decide_eq_true_eq] at h
  have h57 : c.val.toNat ≤ 57 := UInt32.toNat_le_of_le (by norm_num) h.2
  simp only [Char.toLower]
  rw [if_neg]
  intro hc
  have : Char.toNat c = c.val.toNat := rfl
  omega

theorem monthAbbrev_not_digit (c1 c2 c3 : Char) (m : Nat)
    (h : monthAbbrev? c1 c2 c3 = some m) (hd : c1.isDigit = true) : False := by
  unfold monthAbbrev? at h
  rw [Option.map_eq_some'] at h
  obtain ⟨e, hfind, _⟩ := h
  have hmem := List.mem_of_find?_eq_some hfind
  have hpred := List.find?_some hfind
  simp only [Bool.and_eq_true, decide_eq_true_eq] at hpred
  have h1 : c1.toLower = e.1 := hpred.1.1
  rw [digit_toLower c1 hd] at h1
  have hall : ∀ e ∈ monthTable, e.1.isDigit = false := by decide
  have := hall e hmem
  rw [← h1, hd] at this
  simp at this

theorem takeDigits_fst_ne (cs : List Char) (h : (takeDigits cs).1 ≠ []) :
    ∃ c t, cs = c :: t ∧ c.isDigit = true := by
  cases cs with
  | nil => simp [takeDigits] at h
  | cons c t =>
    by_cases hd : c.isDigit
    · exact ⟨c, t, rfl, hd⟩
    · simp [takeDigits, hd] at h

theorem validDayTok_ne_nil (d : List Char) (h : validDayTok d = true) : d ≠ [] := by
  intro hnil
  subst hnil
  simp [validDayTok] at h

theorem skipWs_shape (l r : List Char) (h : skipWs l = some r) :
    ∃ c t, l = c :: t ∧ isWsChar c = true := by
  cases l with
  | nil => simp [skipWs] at h
  | cons c t =>
    by_cases hw : isWsChar c
    · exact ⟨c, t, rfl, hw⟩
    · simp [skipWs, hw] at h

theorem parseBDY_shape (cs : List Char) (r : Nat × Nat × Nat) (h : parseBDY cs = some r) :
    ∃ c1 c2 c3 rest m, cs = c1 :: c2 :: c3 :: rest ∧ monthAbbrev? c1 c2 c3 = some m := by
  match cs with
  | [] => simp [parseBDY] at h
  | [c1] => simp [parseBDY] at h
  | [c1, c2] => simp [parseBDY] at h
  | c1 :: c2 :: c3 :: rest =>
    cases habb : monthAbbrev? c1 c2 c3 with
    | none => rw [parseBDY, habb] at h; exact absurd h (by simp)
    | some m => exact ⟨c1, c2, c3, rest, m, rfl, habb⟩

theorem parseDBY_shape (cs : List Char) (r : Nat × Nat × Nat) (h : parseDBY cs = some r) :
    validDayTok (takeDigits cs).1 = true ∧
      ∃ w ws, (takeDigits cs).2 = w :: ws ∧ isWsChar w = true := by
  by_cases hv : validDayTok (takeDigits cs).1
  · refine ⟨hv, ?_⟩
    rw [parseDBY, if_pos hv] at h
    cases hs : skipWs (takeDigits cs).2 with
    | none => rw [hs] at h; exact absurd h (by simp)
    | some r1 => exact skipWs_shape _ _ hs
  · rw [parseDBY, if_neg hv] at h
    exact absurd h (by simp)

theorem parseDmY_shape (cs : List Char) (r : Nat × Nat × Nat) (h : parseDmY cs = some r) :
    validDayTok (takeDigits cs).1 = true ∧ ∃ t, (takeDigits cs).2 = '-' :: t := by
  by_cases hv : validDayTok (takeDigits cs).1
  · refine ⟨hv, ?_⟩
    rw [parseDmY, if_pos hv] at h
    cases hm : (takeDigits cs).2 with
    | nil => rw [hm] at h; exact absurd h (by simp)
    | cons c t =>
      rw [hm] at h
      dsimp only [] at h
      by_cases hc : c = '-'
      · exact ⟨t, by rw [hc]⟩
      · rw [if_neg hc] at h
        exact absurd h (by simp)
  · rw [parseDmY, if_neg hv] at h
    exact absurd h (by simp)

theorem parseDBY_head_digit (cs : List Char) (r : Nat × Nat × Nat) (h : parseDBY cs = some r) :
    ∃ c t, cs = c :: t ∧ c.isDigit = true :=
  takeDigits_fst_ne cs (validDayTok_ne_nil _ (parseDBY_shape cs r h).1)

theorem parseDmY_head_digit (cs : List Char) (r : Nat × Nat × Nat) (h : parseDmY cs = some r) :
    ∃ c t, cs = c :: t ∧ c.isDigit = true :=
  takeDigits_fst_ne cs (validDayTok_ne_nil _ (parseDmY_shape cs r h).1)

theorem bdy_dby_excl (cs : List Char) (r r' : Nat × Nat × Nat)
    (h1 : parseBDY cs = some r) (h2 : parseDBY cs = some r') : False := by
  obtain ⟨c1, c2, c3, rest, m, hcs, habb⟩ := parseBDY_shape cs r h1
  obtain ⟨c, t, hcs', hd⟩ := parseDBY_head_digit cs r' h2
  rw [hcs] at hcs'
  injection hcs' with hc _
  exact monthAbbrev_not_digit c1 c2 c3 m habb (hc ▸ hd)

theorem bdy_dmy_excl (cs : List Char) (r r' : Nat × Nat × Nat)
    (h1 : parseBDY cs = some r) (h2 : parseDmY cs = some r') : False := by
  obtain ⟨c1, c2, c3, rest, m, hcs, habb⟩ := parseBDY_shape cs r h1
  obtain ⟨c, t, hcs', hd⟩ := parseDmY_head_digit cs r' h2
  rw [hcs] at hcs'
  injection hcs' with hc _
  exact monthAbbrev_not_digit c1 c2 c3 m habb (hc ▸ hd)

theorem dby_dmy_excl (cs : List Char) (r r' : Nat × Nat × Nat)
    (h1 : parseDBY cs = some r) (h2 : parseDmY cs = some r') : False := by
  obtain ⟨_, w, ws, hw, hws⟩ := parseDBY_shape cs r h1
  obtain ⟨_, t, ht⟩ := parseDmY_shape cs r' h2
  rw [ht] at hw
  injection hw with hc _
  rw [← hc] at hws
  simp [isWsChar] at hws

theorem pyStrptime_some_apply (f : DateFmt) (s : String) (r : Nat × Nat × Nat)
    (h : pyStrptime f s = some r) : applyFmt f s.data = some r := by
  unfold pyStrptime at h
  cases happ : applyFmt f s.data with
  | none => rw [happ] at h; exact absurd h (by simp)
  | some r0 =>
    rw [happ] at h
    dsimp only [] at h
    by_cases hv : validDate r0
    · rw [if_pos hv] at h
      injection h with h
      rw [← h]
    · rw [if_neg hv] at h
      exact absurd h (by simp)

/-- Claim C3: for every value of the "date" column, the three patterns
month-name-day-year, day-month-name-year and numeric day-month-year are
attempted in that order and the first one that parses wins: the entries
the code appends for the value equal the singleton canonical rendering
of the first successful pattern (or nothing), so a value that parses
under at least one pattern contributes exactly one output entry, never
two — the three patterns are mutually exclusive, making the missing
`break` unobservable. -/
theorem canonValue_first_wins (s : String) :
    canonValue s = ((dateFormats.findSome? (fun f => pyStrptime f s)).map formatDMY).toList := by
  cases hA : pyStrptime DateFmt.bdy s with
  | some a =>
    cases hB : pyStrptime DateFmt.dby s with
    | some b =>
      exact absurd (pyStrptime_some_apply _ _ _ hB)
        (fun hb => bdy_dby_excl s.data a b (pyStrptime_some_apply _ _ _ hA) hb)
    | none =>
      cases hC : pyStrptime DateFmt.dmy s with
      | some c =>
        exact absurd (pyStrptime_some_apply _ _ _ hC)
          (fun hc => bdy_dmy_excl s.data a c (pyStrptime_some_apply _ _ _ hA) hc)
      | none =>
        simp [canonValue, dateFormats, List.findSome?, hA, hB, hC]
  | none =>
    cases hB : pyStrptime DateFmt.dby s with
    | some b =>
      cases hC : pyStrptime DateFmt.dmy s with
      | some c =>
        exact absurd (pyStrptime_some_apply _ _ _ hC)
          (fun hc => dby_dmy_excl s.data b c (pyStrptime_some_apply _ _ _ hB) hc)
      | none =>
        simp [canonValue, dateFormats, List.findSome?, hA, hB, hC]
    | none =>
      cases hC : pyStrptime DateFmt.dmy s with
      | some c => simp [canonValue, dateFormats, List.findSome?, hA, hB, hC]
      | none => simp [canonValue, dateFormats, List.findSome?, hA, hB, hC]

theorem tail_getD (col : List String) (i : Nat) :
    col.tail.getD i "" = col.getD (i + 1) "" := by
  cases col <;> simp [List.getD]

theorem headD_eq_getD_zero (col : List String) : col.headD "" = col.getD 0 "" := by
  cases col <;> simp [List.getD]

theorem zipRowsAux_eq_range (n : Nat) (ls : List (List String)) :
    zipRowsAux n ls = (List.range n).map (fun i => ls.map (fun col => col.getD i "")) := by
  induction n generalizing ls with
  | zero => simp [zipRowsAux]
  | succ k ih =>
    rw [zipRowsAux, List.range_succ_eq_map, List.map_cons, ih]
    congr 1
    · exact List.map_congr_left (fun col _ => headD_eq_getD_zero col)
    · rw [List.map_map]
      apply List.map_congr_left
      intro i _
      simp only [Function.comp]
      rw [List.map_map]
      apply List.map_congr_left
      intro col _
      simp only [Function.comp]
      exact tail_getD col i

theorem zipLongestRows_eq (ls : List (List String)) :
    zipLongestRows ls = (List.range (maxColLen ls)).map (fun i => ls.map (fun col => col.getD i "")) :=
  zipRowsAux_eq_range _ _

theorem extendKey_keys (c : Store) (k : String) (v : List String) :
    (extendKey c k v).map Prod.fst = c.map Prod.fst := by
  induction c with
  | nil => simp [extendKey]
  | cons kv t ih =>
    obtain ⟨k0, v0⟩ := kv
    by_cases h0 : k0 = k
    · simp [extendKey, h0]
    · simp [extendKey, h0, ih]

theorem getCol_isSome_iff (c : Store) (k : String) :
    (getCol c k).isSome = true ↔ k ∈ c.map Prod.fst := by
  induction c with
  | nil => simp [getCol]
  | cons kv t ih =>
    obtain ⟨k0, v0⟩ := kv
    by_cases h0 : k0 = k
    · subst h0
      simp [getCol]
    · simp [getCol, h0, ih, Ne.symm h0]

theorem foldl_merge_keys (per : Store) : ∀ agg : Store,
    ((per.foldl
      (fun acc kv => if (getCol acc kv.1).isSome then extendKey acc kv.1 kv.2 else acc)
      agg).map Prod.fst) = agg.map Prod.fst := by
  induction per with
  | nil => intro agg; simp
  | cons kv t ih =>
    intro agg
    rw [List.foldl_cons, ih]
    by_cases h : (getCol agg kv.1).isSome
    · simp [h, extendKey_keys]
    · simp [h]

theorem mergeStore_keys (agg per : Store) (h : agg ≠ []) :
    (mergeStore agg per).map Prod.fst = agg.map Prod.fst := by
  rw [mergeStore, if_neg (by simpa [List.isEmpty_iff] using h)]
  exact foldl_merge_keys per agg

theorem endsWith_suffix (fn sfx : String) (h : endsWith fn sfx = true) :
    sfx.data <:+ fn.data := by
  rw [endsWith, List.isSuffixOf_iff_suffix] at h
  exact h

theorem suffix_conflict (l s1 s2 : List Char) (h1 : s1 <:+ l) (h2 : s2 <:+ l)
    (hle : s1.length ≤ s2.length) (hns : ¬ s1 <:+ s2) : False :=
  hns (List.suffix_of_suffix_length_le h1 h2 hle)

theorem xml_not_csv (fn : String) (h : endsWith fn ".xml" = true) :
    endsWith fn ".csv" = false := by
  by_contra hc
  rw [Bool.not_eq_false] at hc
  exact suffix_conflict fn.data (".csv").data (".xml").data
    (endsWith_suffix fn ".csv" hc) (endsWith_suffix fn ".xml" h)
    (by decide) (by decide)

theorem json_not_csv (fn : String) (h : endsWith fn ".json" = true) :
    endsWith fn ".csv" = false := by
  by_contra hc
  rw [Bool.not_eq_false] at hc
  exact suffix_conflict fn.data (".csv").data (".json").data
    (endsWith_suffix fn ".csv" hc) (endsWith_suffix fn ".json" h)
    (by decide) (by decide)

theorem json_not_xml (fn : String) (h : endsWith fn ".json" = true) :
    endsWith fn ".xml" = false := by
  by_contra hc
  rw [Bool.not_eq_false] at hc
  exact suffix_conflict fn.data (".xml").data (".json").data
    (endsWith_suffix fn ".xml" hc) (endsWith_suffix fn ".json" h)
    (by decide) (by decide)

theorem runSched_invariant (sched : List Nat) : ∀ (q : List String) (log : List (Nat × String)),
    (sched.foldl dequeueStep ⟨q, log⟩).queue = q.drop sched.length ∧
      (sched.foldl dequeueStep ⟨q, log⟩).log.map Prod.snd =
        log.map Prod.snd ++ q.take sched.length := by
  induction sched with
  | nil => intro q log; simp
  | cons w ws ih =>
    intro q log
    rw [List.foldl_cons]
    cases q with
    | nil =>
      have : dequeueStep ⟨[], log⟩ w = ⟨[], log⟩ := by rfl
      rw [this]
      obtain ⟨h1, h2⟩ := ih [] log
      exact ⟨by simpa using h1, by simpa using h2⟩
    | cons f fs =>
      have : dequeueStep ⟨f :: fs, log⟩ w = ⟨fs, log ++ [(w, f)]⟩ := by rfl
      rw [this]
      obtain ⟨h1, h2⟩ := ih fs (log ++ [(w, f)])
      refine ⟨by simpa using h1, ?_⟩
      rw [h2]
      simp [List.take_succ_cons]

theorem truthy_some_of_ne_nil (v : List String) (h : v ≠ []) : truthy (some v) = true := by
  cases v with
  | nil => exact absurd rfl h
  | cons a t => rfl

theorem getCol_ruleAmount_other (c : Store) (k : String)
    (h1 : k ≠ "amount") (h2 : k ≠ "euro") (h3 : k ≠ "cents") :
    getCol (ruleAmount c) k = getCol c k := by
  unfold ruleAmount
  split
  · rw [getCol_delKey_ne _ _ _ h3, getCol_delKey_ne _ _ _ h2, getCol_setKey_ne _ _ _ _ h1]
  · rfl

theorem getCol_ruleTimestamp_other (c : Store) (k : String)
    (h1 : k ≠ "date") (h2 : k ≠ "timestamp") :
    getCol (ruleTimestamp c) k = getCol c k := by
  unfold ruleTimestamp
  split
  · rw [getCol_delKey_ne _ _ _ h2, getCol_setKey_ne _ _ _ _ h1]
  · rfl

theorem getCol_ruleDateReadable_other (c : Store) (k : String)
    (h1 : k ≠ "date") (h2 : k ≠ "date_readable") :
    getCol (ruleDateReadable c) k = getCol c k := by
  unfold ruleDateReadable
  split
  · rw [getCol_delKey_ne _ _ _ h2, getCol_setKey_ne _ _ _ _ h1]
  · rfl

theorem getCol_ruleType_other (c : Store) (k : String)
    (h1 : k ≠ "transaction") (h2 : k ≠ "type") :
    getCol (ruleType c) k = getCol c k := by
  unfold ruleType
  split
  · rw [getCol_delKey_ne _ _ _ h2, getCol_setKey_ne _ _ _ _ h1]
  · rfl

theorem getCol_ruleAmounts_other (c : Store) (k : String)
    (h1 : k ≠ "amount") (h2 : k ≠ "amounts") :
    getCol (ruleAmounts c) k = getCol c k := by
  unfold ruleAmounts
  split
  · rw [getCol_delKey_ne _ _ _ h2, getCol_setKey_ne _ _ _ _ h1]
  · rfl

theorem ruleAmounts_skip (c : Store)
    (h : getCol c "amounts" = none ∨ getCol c "amounts" = some []) :
    ruleAmounts c = c := by
  unfold ruleAmounts
  rcases h with h | h <;> rw [h] <;> rfl

theorem ruleAmount_fires (c : Store) (e s : List String)
    (he : getCol c "euro" = some e) (hene : e ≠ [])
    (hs : getCol c "cents" = some s) (hsne : s ≠ []) :
    ruleAmount c =
      delKey (delKey (setKey c "amount"
        (List.zipWith (fun a b => a ++ "." ++ b) e s)) "euro") "cents" := by
  unfold ruleAmount
  rw [he, hs, truthy_some_of_ne_nil e hene, truthy_some_of_ne_nil s hsne]
  rfl

theorem ruleTimestamp_fires (c : Store) (v : List String)
    (h : getCol c "timestamp" = some v) (hne : v ≠ []) :
    ruleTimestamp c = delKey (setKey c "date" v) "timestamp" := by
  unfold ruleTimestamp
  rw [h, truthy_some_of_ne_nil v hne]
  rfl

theorem ruleDateReadable_fires (c : Store) (v : List String)
    (h : getCol c "date_readable" = some v) (hne : v ≠ []) :
    ruleDateReadable c = delKey (setKey c "date" v) "date_readable" := by
  unfold ruleDateReadable
  rw [h, truthy_some_of_ne_nil v hne]
  rfl

/-- Claim C2 as amended: when both "timestamp" and "date_readable" are
present and non-empty, both renames fire in order and date_readable
wins — the resulting "date" sequence equals the original date_readable
sequence, and both source keys are removed. -/
theorem c2_date_readable_wins (c : Store) (ts dr : List String)
    (hts : getCol c "timestamp" = some ts) (htsne : ts ≠ [])
    (hdr : getCol c "date_readable" = some dr) (hdrne : dr ≠ []) :
    getCol (csvNormalize c) "date" = some dr ∧
      getCol (csvNormalize c) "timestamp" = none ∧
      getCol (csvNormalize c) "date_readable" = none := by
  unfold csvNormalize
  have h1ts : getCol (ruleAmount c) "timestamp" = some ts := by
    rw [getCol_ruleAmount_other c "timestamp" (by decide) (by decide) (by decide), hts]
  have h1dr : getCol (ruleAmount c) "date_readable" = some dr := by
    rw [getCol_ruleAmount_other c "date_readable" (by decide) (by decide) (by decide), hdr]
  rw [ruleTimestamp_fires (ruleAmount c) ts h1ts htsne]
  have h2dr :
      getCol (delKey (setKey (ruleAmount c) "date" ts) "timestamp") "date_readable" = some dr := by
    rw [getCol_delKey_ne _ _ _ (by decide), getCol_setKey_ne _ _ _ _ (by decide), h1dr]
  rw [ruleDateReadable_fires _ dr h2dr hdrne]
  have h3date :
      getCol (delKey (setKey (delKey (setKey (ruleAmount c) "date" ts) "timestamp") "date" dr)
        "date_readable") "date" = some dr := by
    rw [getCol_delKey_ne _ _ _ (by decide), getCol_setKey_self]
  have h3ts :
      getCol (delKey (setKey (delKey (setKey (ruleAmount c) "date" ts) "timestamp") "date" dr)
        "date_readable") "timestamp" = none := by
    rw [getCol_delKey_ne _ _ _ (by decide), getCol_setKey_ne _ _ _ _ (by decide),
      getCol_delKey_self]
  have h3dr :
      getCol (delKey (setKey (delKey (setKey (ruleAmount c) "date" ts) "timestamp") "date" dr)
        "date_readable") "date_readable" = none := by
    rw [getCol_delKey_self]
  refine ⟨?_, ?_, ?_⟩ <;>
    rw [getCol_ruleAmounts_other _ _ (by decide) (by decide),
      getCol_ruleType_other _ _ (by decide) (by decide)] <;>
    assumption

/-- Claim C5 as amended: for every store with non-empty "euro" and
"cents" columns and no non-empty "amounts" column, normalisation yields
"amount" as the positionwise euro.cents concatenation (trimmed to the
shorter sequence by `zip`) and removes the "euro" and "cents" keys. -/
theorem c5_amount_synthesis (c : Store) (e s : List String)
    (he : getCol c "euro" = some e) (hene : e ≠ [])
    (hs : getCol c "cents" = some s) (hsne : s ≠ [])
    (hno : getCol c "amounts" = none ∨ getCol c "amounts" = some []) :
    getCol (csvNormalize c) "amount" =
        some (List.zipWith (fun a b => a ++ "." ++ b) e s) ∧
      getCol (csvNormalize c) "euro" = none ∧
      getCol (csvNormalize c) "cents" = none := by
  unfold csvNormalize
  rw [ruleAmount_fires c e s he hene hs hsne]
  have h1am :
      getCol (delKey (delKey (setKey c "amount"
        (List.zipWith (fun a b => a ++ "." ++ b) e s)) "euro") "cents") "amount" =
        some (List.zipWith (fun a b => a ++ "." ++ b) e s) := by
    rw [getCol_delKey_ne _ _ _ (by decide), getCol_delKey_ne _ _ _ (by decide),
      getCol_setKey_self]
  have h1e :
      getCol (delKey (delKey (setKey c "amount"
        (List.zipWith (fun a b => a ++ "." ++ b) e s)) "euro") "cents") "euro" = none := by
    rw [getCol_delKey_ne _ _ _ (by decide), getCol_delKey_self]
  have h1c :
      getCol (delKey (delKey (setKey c "amount"
        (List.zipWith (fun a b => a ++ "." ++ b) e s)) "euro") "cents") "cents" = none := by
    rw [getCol_delKey_self]
  have h1no :
      getCol (delKey (delKey (setKey c "amount"
        (List.zipWith (fun a b => a ++ "." ++ b) e s)) "euro") "cents") "amounts" =
        getCol c "amounts" := by
    rw [getCol_delKey_ne _ _ _ (by decide), getCol_delKey_ne _ _ _ (by decide),
      getCol_setKey_ne _ _ _ _ (by decide)]
  have hskip : ruleAmounts (ruleType (ruleDateReadable (ruleTimestamp
      (delKey (delKey (setKey c "amount"
        (List.zipWith (fun a b => a ++ "." ++ b) e s)) "euro") "cents")))) =
      ruleType (ruleDateReadable (ruleTimestamp
      (delKey (delKey (setKey c "amount"
        (List.zipWith (fun a b => a ++ "." ++ b) e s)) "euro") "cents"))) := by
    apply ruleAmounts_skip
    rw [getCol_ruleType_other _ _ (by decide) (by decide),
      getCol_ruleDateReadable_other _ _ (by decide) (by decide),
      getCol_ruleTimestamp_other _ _ (by decide) (by decide), h1no]
    exact hno
  rw [hskip]
  refine ⟨?_, ?_, ?_⟩ <;>
    rw [getCol_ruleType_other _ _ (by decide) (by decide),
      getCol_ruleDateReadable_other _ _ (by decide) (by decide),
      getCol_ruleTimestamp_other _ _ (by decide) (by decide)] <;>
    assumption

/-- Claim C1, behaviour of the code at the failing input: merging a
per-file store that brings a new key "extra" into a non-empty aggregate
leaves the aggregate's key set unchanged — the new key is silently
dropped instead of being installed, because lines 130-132 only extend
keys already present and lines 127-128 install keys only into an empty
aggregate. -/
theorem c1_merge_drops_new_keys :
    mergeStore [("date", ["05-01-2020"]), ("amount", ["10.00"])]
        [("date", ["06-01-2020"]), ("extra", ["x"])] =
      [("date", ["05-01-2020", "06-01-2020"]), ("amount", ["10.00"])] ∧
    getCol (mergeStore [("date", ["05-01-2020"]), ("amount", ["10.00"])]
        [("date", ["06-01-2020"]), ("extra", ["x"])]) "extra" = none := by
  decide

/-- Claim C2, counterexample: on a store with both a "timestamp" and a
"date_readable" column, the normalised "date" sequence is the
date_readable values, not the timestamp values the claim demands — the
two renames are independent ifs, and the second overwrites the first. -/
theorem c2_cex :
    getCol (csvNormalize [("timestamp", ["T1"]), ("date_readable", ["R1"])]) "date" ≠
        some ["T1"] ∧
      getCol (csvNormalize [("timestamp", ["T1"]), ("date_readable", ["R1"])]) "date" =
        some ["R1"] := by
  decide

/-- Claim C4: "Jan 05 2020", "05 Jan 2020" and "05-01-2020" each
canonicalise to "05-01-2020"; "2020/01/05" matches no accepted pattern
and is silently dropped, shortening the date sequence by one. -/
theorem c4_concrete :
    dateCanonList ["Jan 05 2020"] = ["05-01-2020"] ∧
    dateCanonList ["05 Jan 2020"] = ["05-01-2020"] ∧
    dateCanonList ["05-01-2020"] = ["05-01-2020"] ∧
    dateCanonList ["2020/01/05"] = [] ∧
    (dateCanonList ["Jan 05 2020", "2020/01/05", "05 Jan 2020"]).length =
      (["Jan 05 2020", "2020/01/05", "05 Jan 2020"] : List String).length - 1 := by
  decide

/-- Claim C5, counterexample: on a store carrying "euro", "cents" and a
non-empty "amounts" column, the final "amount" value is the "amounts"
sequence, not the synthesised euro.cents pairing the claim demands —
the later amounts-to-amount rename overwrites it. -/
theorem c5_cex :
    getCol (csvNormalize [("euro", ["1"]), ("cents", ["2"]), ("amounts", ["9"])]) "amount" ≠
        some ["1.2"] ∧
      getCol (csvNormalize [("euro", ["1"]), ("cents", ["2"]), ("amounts", ["9"])]) "amount" =
        some ["9"] := by
  decide

/-- Claim C6: the Output Writer emits a header row of the aggregate's
keys followed by the positional zip of all key-sequences; the data row
count equals the longest sequence's length, and row i holds, for each
column, its i-th value or the empty placeholder once the column is
exhausted. -/
theorem c6_output_rows (agg : Store) :
    (generate_csv agg).head? = some (agg.map Prod.fst) ∧
      (generate_csv agg).tail.length = maxColLen (agg.map Prod.snd) ∧
      (generate_csv agg).tail =
        (List.range (maxColLen (agg.map Prod.snd))).map
          (fun i => agg.map (fun kv => kv.2.getD i "")) := by
  refine ⟨rfl, ?_, ?_⟩
  · show (zipLongestRows (agg.map Prod.snd)).length = _
    rw [zipLongestRows_eq]
    simp
  · show zipLongestRows (agg.map Prod.snd) = _
    rw [zipLongestRows_eq]
    apply List.map_congr_left
    intro i _
    rw [List.map_map]
    rfl

/-- Claim C7: a filename whose suffix matches no registered kind (not
".csv", ".xml" or ".json") makes the dispatch raise the
unsupported-kind error instead of processing the file; no aggregate
state is ever produced for it. -/
theorem c7_unsupported_fatal (readFile : String → Store) (agg : Store) (fn : String)
    (h1 : endsWith fn ".csv" = false) (h2 : endsWith fn ".xml" = false)
    (h3 : endsWith fn ".json" = false) :
    file_parser_factory_method readFile agg fn =
        Except.error "Error. Cannot parse this type of file." ∧
      ∀ s : Store, file_parser_factory_method readFile agg fn ≠ Except.ok s := by
  have : file_parser_factory_method readFile agg fn =
      Except.error "Error. Cannot parse this type of file." := by
    unfold file_parser_factory_method
    rw [h1, h2, h3]
    rfl
  exact ⟨this, fun s hs => by rw [this] at hs; exact absurd hs (by simp)⟩

/-- Witness for claim C7 at the concrete filename "statement.txt". -/
theorem c7_witness :
    file_parser_factory_method (fun _ => []) [] "statement.txt" =
      Except.error "Error. Cannot parse this type of file." :=
  (c7_unsupported_fatal (fun _ => []) [] "statement.txt"
    (by decide) (by decide) (by decide)).1

/-- Claim C10: a filename ending in ".xml" or ".json" hits the `pass`
placeholder branch: the dispatch returns successfully with the
aggregate unchanged and never consults the file contents (the result
does not depend on the read oracle) — a silent no-op, unlike the error
raised for unregistered suffixes. -/
theorem c10_xml_json_silent_noop (r r' : String → Store) (agg : Store) (fn : String)
    (h : endsWith fn ".xml" = true ∨ endsWith fn ".json" = true) :
    file_parser_factory_method r agg fn = Except.ok agg ∧
      file_parser_factory_method r agg fn = file_parser_factory_method r' agg fn := by
  have hok : ∀ rd : String → Store, file_parser_factory_method rd agg fn = Except.ok agg := by
    intro rd
    unfold file_parser_factory_method
    rcases h with hx | hj
    · rw [xml_not_csv fn hx, hx]
      rfl
    · rw [json_not_csv fn hj, json_not_xml fn hj, hj]
      rfl
  exact ⟨hok r, by rw [hok r, hok r']⟩

/-- Witness for claim C10 at the concrete filename "data.xml". -/
theorem c10_witness :
    file_parser_factory_method (fun _ => [("a", ["1"])]) [("k", ["v"])] "data.xml" =
        Except.ok [("k", ["v"])] ∧
      file_parser_factory_method (fun _ => [("a", ["1"])]) [("k", ["v"])] "data.xml" =
        file_parser_factory_method (fun _ => []) [("k", ["v"])] "data.xml" :=
  c10_xml_json_silent_noop (fun _ => [("a", ["1"])]) (fun _ => []) [("k", ["v"])] "data.xml"
    (Or.inl (by decide))

/-- Claim C8: under every interleaving of the workers' atomic queue
gets that offers at least as many get attempts as there are files (the
workers loop until the queue is empty, so every real run does), the log
of dequeued files equals the enqueued file list exactly — every file
reference is dequeued and handed to exactly one worker, none twice,
none omitted — and the queue ends empty. -/
theorem c8_exactly_once (files : List String) (sched : List Nat)
    (h : files.length ≤ sched.length) :
    (runSched files sched).log.map Prod.snd = files ∧ (runSched files sched).queue = [] := by
  obtain ⟨hq, hl⟩ := runSched_invariant sched files []
  constructor
  · rw [runSched, hl]
    simp [List.take_of_length_le h]
  · rw [runSched, hq]
    exact List.drop_eq_nil_of_le h

/-- Witness for claim C8: three files drained by three workers under a
concrete interleaving. -/
theorem c8_witness :
    (runSched ["a.csv", "b.csv", "c.csv"] [0, 1, 2, 1]).log.map Prod.snd =
        ["a.csv", "b.csv", "c.csv"] ∧
      (runSched ["a.csv", "b.csv", "c.csv"] [0, 1, 2, 1]).queue = [] :=
  c8_exactly_once ["a.csv", "b.csv", "c.csv"] [0, 1, 2, 1] (by decide)

/-- Claim C9: every per-file store produced by `csv_parser` contains a
"date" key (the defaultdict access of line 118 creates it even when no
date-like column existed), the first merge installs the per-file store
wholesale, later merges preserve the aggregate's key set, and the
output header lists the aggregate's keys — so the header always
contains "date". -/
theorem c9_date_always_present (raw agg per : Store) :
    (getCol (csvParse raw) "date").isSome = true ∧
      mergeStore [] (csvParse raw) = csvParse raw ∧
      ((getCol agg "date").isSome = true →
        (getCol (mergeStore agg per) "date").isSome = true) ∧
      ((getCol agg "date").isSome = true →
        (generate_csv agg).head? = some (agg.map Prod.fst) ∧ "date" ∈ agg.map Prod.fst) := by
  refine ⟨?_, rfl, ?_, ?_⟩
  · show (getCol (csvCanonDates (csvNormalize raw)) "date").isSome = true
    unfold csvCanonDates
    rw [getCol_setKey_self]
    rfl
  · intro h
    have hne : agg ≠ [] := by
      intro hnil
      subst hnil
      simp [getCol] at h
    rw [getCol_isSome_iff] at h ⊢
    rw [mergeStore_keys agg per hne]
    exact h
  · intro h
    exact ⟨rfl, (getCol_isSome_iff agg "date").mp h⟩

/-- Witness for claim C9 at concrete stores without and with a date
column. -/
theorem c9_witness :
    (getCol (csvParse [("memo", ["m1"])]) "date").isSome = true ∧
      (getCol (mergeStore [("date", ["01-01-2020"])] [("memo", ["m2"])]) "date").isSome = true :=
  ⟨(c9_date_always_present [("memo", ["m1"])] [] []).1,
    (c9_date_always_present [] [("date", ["01-01-2020"])] [("memo", ["m2"])]).2.2.1 (by decide)⟩

/-- Witness for the amended claim C2 at a concrete store. -/
theorem c2_witness :
    getCol (csvNormalize [("timestamp", ["t0"]), ("date_readable", ["r0"])]) "date" =
        some ["r0"] ∧
      getCol (csvNormalize [("timestamp", ["t0"]), ("date_readable", ["r0"])]) "timestamp" =
        none ∧
      getCol (csvNormalize [("timestamp", ["t0"]), ("date_readable", ["r0"])])
        "date_readable" = none :=
  c2_date_readable_wins [("timestamp", ["t0"]), ("date_readable", ["r0"])] ["t0"] ["r0"]
    (by decide) (by decide) (by decide) (by decide)

/-- Witness for the amended claim C5 at the spec's example store:
euro=["10","5"], cents=["50","00"] gives amount=["10.50","5.00"]. -/
theorem c5_witness :
    getCol (csvNormalize [("euro", ["10", "5"]), ("cents", ["50", "00"])]) "amount" =
        some ["10.50", "5.00"] ∧
      getCol (csvNormalize [("euro", ["10", "5"]), ("cents", ["50", "00"])]) "euro" = none ∧
      getCol (csvNormalize [("euro", ["10", "5"]), ("cents", ["50", "00"])]) "cents" = none := by
  have h := c5_amount_synthesis [("euro", ["10", "5"]), ("cents", ["50", "00"])]
    ["10", "5"] ["50", "00"] (by decide) (by decide) (by decide) (by decide)
    (Or.inl (by decide))
  simpa using h
